import Mathlib

/-!
Shallow embedding of `src/chunk_distribution.go` (package main of
iancoleman/chunk_distribution) and proofs about its chunk-accounting
algorithm.

Modelling conventions:
  * file sizes (`os.FileInfo.Size()`, non-negative `int64`) are `ℕ`;
  * the `int64` counters (`gt`, `lt`, `totalChunks`, `largeChunks`,
    `smallChunks`, histogram counts) are `ℤ` (no overflow is reachable for
    the magnitudes involved);
  * the `float64` gigabyte accumulators are modelled as exact rationals `ℚ`
    (`float64(size)/float64(OneGb)` becomes `(size : ℚ) / OneGb`);
  * `int64(math.Ceil(float64(size) / float64(OneMb)))` is modelled as the
    integer ceiling division `(size + OneMb - 1) / OneMb` (exact for every
    size below 2^53, where the `float64` conversion is lossless);
  * the Go map `map[int64]int64` is modelled as a structure holding the set
    of keys present in the map, the (total) count function — a missing key
    reads as 0, exactly as a Go map read does — and a counter of how many
    times the missing-key branch of `addToHistogram` ran (the branch that
    prints "Missing key in histogram" and inserts the key).
-/

/-- One kilobyte, `const OneKb = 1024` in the source. -/
def OneKb : ℕ := 1024

/-- One megabyte, `const OneMb = 1024 * 1024` in the source. -/
def OneMb : ℕ := 1024 * 1024

/-- One gigabyte, `const OneGb = 1024 * 1024 * 1024` in the source. -/
def OneGb : ℕ := 1024 * 1024 * 1024

/-- The Go map `map[int64]int64` histogram: the keys present in the map,
the counts (total function, absent key reads as 0 like a Go map), and how
many times `addToHistogram` hit its missing-key branch. -/
structure Histogram where
  keys : Finset ℕ
  counts : ℕ → ℤ
  missingKeyWarnings : ℕ

/-- Embedding of `addToHistogram(histogram, size, count)`:
`key := (size / 100) * 100`; if the key is absent it is created (and a
warning is printed, counted here); then `count` is added at the key. -/
def addToHistogram (h : Histogram) (size : ℕ) (count : ℤ) : Histogram :=
  let key := size / 100 * 100
  { keys := insert key h.keys
    counts := fun k => if k = key then h.counts k + count else h.counts k
    missingKeyWarnings :=
      if key ∈ h.keys then h.missingKeyWarnings else h.missingKeyWarnings + 1 }

/-- The eleven bucket keys the histogram map is initialised with in
`reportSizes`. -/
def initKeys : Finset ℕ :=
  {0, 100, 200, 300, 400, 500, 600, 700, 800, 900, 1000}

/-- The histogram literal `map[int64]int64{0: 0, 100: 0, ..., 1000: 0}`
at the top of `reportSizes`. -/
def initHistogram : Histogram :=
  { keys := initKeys, counts := fun _ => 0, missingKeyWarnings := 0 }

/-- The accumulator variables of `reportSizes`. -/
structure AggState where
  gt : ℤ
  lt : ℤ
  totalChunks : ℤ
  largeChunks : ℤ
  smallChunks : ℤ
  largeGigabytes : ℚ
  smallGigabytes : ℚ
  histogram : Histogram

/-- The state of `reportSizes`'s accumulators before its loop runs. -/
def initState : AggState :=
  { gt := 0, lt := 0, totalChunks := 0, largeChunks := 0, smallChunks := 0
    largeGigabytes := 0, smallGigabytes := 0, histogram := initHistogram }

/-- Embedding of `int64(math.Ceil(float64(size) / float64(OneMb)))` as the
integer ceiling division (exact for all sizes below 2^53). -/
def fileChunksFor (size : ℕ) : ℕ := (size + OneMb - 1) / OneMb

/-- One iteration of the `for _, file := range files` loop body of
`reportSizes`, acting on the accumulators for one file of the given size. -/
def processFile (st : AggState) (size : ℕ) : AggState :=
  if OneMb < size then
    let fileChunks : ℤ := (fileChunksFor size : ℤ)
    { st with
      gt := st.gt + 1
      largeGigabytes := st.largeGigabytes + (size : ℚ) / (OneGb : ℚ)
      totalChunks := st.totalChunks + fileChunks + 1
      largeChunks := st.largeChunks + fileChunks - 1
      smallChunks := st.smallChunks + 2
      histogram :=
        addToHistogram
          (addToHistogram
            (addToHistogram st.histogram 1024 (fileChunks - 1))
            ((size % OneMb) / OneKb) 1)
          1 1 }
  else if size < 3 * OneKb then
    { st with
      lt := st.lt + 1
      smallGigabytes := st.smallGigabytes + (size : ℚ) / (OneGb : ℚ)
      totalChunks := st.totalChunks + 1
      smallChunks := st.smallChunks + 1
      histogram := addToHistogram st.histogram (size / OneKb) 1 }
  else
    { st with
      lt := st.lt + 1
      smallGigabytes := st.smallGigabytes + (size : ℚ) / (OneGb : ℚ)
      totalChunks := st.totalChunks + 4
      smallChunks := st.smallChunks + 4
      histogram :=
        addToHistogram (addToHistogram st.histogram (size / OneKb / 3) 3) 1 1 }

/-- Embedding of the accumulation loop of `reportSizes`: the state of all
accumulators after processing the given list of file sizes. -/
def reportSizes (files : List ℕ) : AggState :=
  files.foldl processFile initState

/-- The `(size, count)` argument pairs `reportSizes` passes to
`addToHistogram` for one file of the given size, in call order. -/
def recordedEntries (size : ℕ) : List (ℕ × ℤ) :=
  if OneMb < size then
    [(1024, (fileChunksFor size : ℤ) - 1), ((size % OneMb) / OneKb, 1), (1, 1)]
  else if size < 3 * OneKb then
    [(size / OneKb, 1)]
  else
    [(size / OneKb / 3, 3), (1, 1)]

/-- The chunk sizes (in KB, as passed to `addToHistogram`) recorded for one
file of the given size. -/
def recordedSizes (size : ℕ) : List ℕ :=
  (recordedEntries size).map Prod.fst

/-- Pointwise merge of two histograms: union of key sets, addition of
counts and of warning counters. -/
def mergeHistogram (a b : Histogram) : Histogram :=
  { keys := a.keys ∪ b.keys
    counts := fun k => a.counts k + b.counts k
    missingKeyWarnings := a.missingKeyWarnings + b.missingKeyWarnings }

/-- Fieldwise additive merge of two aggregation states. -/
def mergeState (a b : AggState) : AggState :=
  { gt := a.gt + b.gt
    lt := a.lt + b.lt
    totalChunks := a.totalChunks + b.totalChunks
    largeChunks := a.largeChunks + b.largeChunks
    smallChunks := a.smallChunks + b.smallChunks
    largeGigabytes := a.largeGigabytes + b.largeGigabytes
    smallGigabytes := a.smallGigabytes + b.smallGigabytes
    histogram := mergeHistogram a.histogram b.histogram }

/-- Sum of the per-bucket counts over the keys present in the histogram. -/
def histogramTotal (h : Histogram) : ℤ :=
  ∑ k ∈ h.keys, h.counts k

/-- Outcome of `main`: whether the `user.Current()` error was printed,
whether the traversal ran and the report was printed, and the process exit
status. -/
structure MainOutcome where
  printedError : Bool
  printedReport : Bool
  exitCode : ℕ

/-- Embedding of `main`: `currentUser` is `none` when `user.Current()`
fails, otherwise `some files` with the file sizes found under the home
directory. On error Go prints the error and `return`s from `main`, which
exits the process with status 0; otherwise the traversal runs,
`reportSizes` prints the report, and `main` returns normally (status 0). -/
def runMain (currentUser : Option (List ℕ)) : MainOutcome :=
  match currentUser with
  | Option.none => { printedError := true, printedReport := false, exitCode := 0 }
  | Option.some _ => { printedError := false, printedReport := true, exitCode := 0 }

/-! ### Helper lemmas -/

/-- The counts function after `addToHistogram` adds `count` at the bucket key
and leaves every other bucket unchanged. -/
theorem addToHistogram_counts (h : Histogram) (s : ℕ) (c : ℤ) :
    (addToHistogram h s c).counts =
      fun k => h.counts k + if k = s / 100 * 100 then c else 0 := by
  funext k
  simp only [addToHistogram]
  split <;> simp

/-- When the bucket key already exists, `addToHistogram` leaves the key set
and the warning counter unchanged. -/
theorem addToHistogram_of_mem (h : Histogram) (s : ℕ) (c : ℤ)
    (hk : s / 100 * 100 ∈ h.keys) :
    (addToHistogram h s c).keys = h.keys ∧
    (addToHistogram h s c).missingKeyWarnings = h.missingKeyWarnings := by
  constructor
  · simp only [addToHistogram]
    exact Finset.insert_eq_self.mpr hk
  · simp [addToHistogram, hk]

/-- Every bucket key computed from a recorded size of at most 1024 KB is one
of the eleven initial keys. -/
theorem bucketKey_mem_initKeys (x : ℕ) (hx : x ≤ 1024) :
    x / 100 * 100 ∈ initKeys := by
  have h : x / 100 ≤ 10 := by omega
  set q := x / 100 with hq
  interval_cases q <;> simp [initKeys]

/-! ### Claims -/

/-- C1 counterexample: processing a single 500-byte file (0 ≤ 500 < 3 KB)
adds only 1 chunk, not the 2 chunks the claim states: `totalChunks` ends at
1, refuting "totalChunks ... increase[s] by 2". -/
theorem C1_counterexample :
    (reportSizes [500]).totalChunks = 1 ∧
    ¬ (reportSizes [500]).totalChunks = 2 := by
  constructor <;> decide

/-- C1 (amended): for every file size with 0 ≤ size < 3 KB, processing the
file adds exactly 1 chunk to the totals (only the datamap, which carries the
data: "+ 1 for datamap with no chunks"), classified small: `totalChunks` and
`smallChunks` each increase by 1, `largeChunks` is unchanged, and one
histogram entry is recorded, at bucket 0. -/
theorem C1_amended (st : AggState) (size : ℕ) (h : size < 3 * OneKb) :
    (processFile st size).totalChunks = st.totalChunks + 1 ∧
    (processFile st size).smallChunks = st.smallChunks + 1 ∧
    (processFile st size).largeChunks = st.largeChunks ∧
    (processFile st size).histogram.counts =
      fun k => st.histogram.counts k + if k = 0 then 1 else 0 := by
  have hmb : ¬ OneMb < size := by
    simp only [OneKb, OneMb] at *
    omega
  have hkey : size / OneKb / 100 * 100 = 0 := by
    simp only [OneKb] at *
    omega
  refine ⟨?_, ?_, ?_, ?_⟩ <;>
    simp [processFile, hmb, h, addToHistogram_counts, hkey]

/-- Witness for C1 (amended) at size 500 from the initial state. -/
theorem C1_amended_witness :
    500 < 3 * OneKb ∧
    ((processFile initState 500).totalChunks = initState.totalChunks + 1 ∧
     (processFile initState 500).smallChunks = initState.smallChunks + 1 ∧
     (processFile initState 500).largeChunks = initState.largeChunks ∧
     (processFile initState 500).histogram.counts =
       fun k => initState.histogram.counts k + if k = 0 then 1 else 0) :=
  ⟨by decide, C1_amended initState 500 (by decide)⟩

/-- C2: for every file size strictly greater than 1 MB, processing the file
adds `fileChunks + 1` to `totalChunks`, `fileChunks - 1` to `largeChunks`
and 2 to `smallChunks`, where `fileChunks = fileChunksFor size` is exactly
`ceil(size / 1MB)` (characterised by the two inequalities). -/
theorem C2_large_file_counts (st : AggState) (size : ℕ) (h : OneMb < size) :
    (processFile st size).totalChunks =
      st.totalChunks + (fileChunksFor size : ℤ) + 1 ∧
    (processFile st size).largeChunks =
      st.largeChunks + (fileChunksFor size : ℤ) - 1 ∧
    (processFile st size).smallChunks = st.smallChunks + 2 ∧
    OneMb * (fileChunksFor size - 1) < size ∧
    size ≤ OneMb * fileChunksFor size := by
  refine ⟨?_, ?_, ?_, ?_, ?_⟩ <;>
    simp only [processFile, fileChunksFor, OneMb] at * <;>
    first
      | (rw [if_pos h])
      | skip
  · omega
  · omega

/-- Witness for C2 at size 1 MB + 1 from the initial state. -/
theorem C2_large_file_counts_witness :
    OneMb < 1048577 ∧
    ((processFile initState 1048577).totalChunks =
       initState.totalChunks + (fileChunksFor 1048577 : ℤ) + 1 ∧
     (processFile initState 1048577).largeChunks =
       initState.largeChunks + (fileChunksFor 1048577 : ℤ) - 1 ∧
     (processFile initState 1048577).smallChunks = initState.smallChunks + 2 ∧
     OneMb * (fileChunksFor 1048577 - 1) < 1048577 ∧
     1048577 ≤ OneMb * fileChunksFor 1048577) :=
  ⟨by decide, C2_large_file_counts initState 1048577 (by decide)⟩

/-- C3: for every file size with 3 KB ≤ size ≤ 1 MB (upper bound inclusive,
since the large-file branch uses strict `>`), processing the file adds
exactly 4 chunks, all small: `totalChunks` and `smallChunks` each increase
by 4, `largeChunks` is unchanged, the 3 data chunks are recorded (count 3)
at the bucket of `size / 3 / 1KB` — which equals the code's
`size / 1KB / 3` — and the datamap is recorded (count 1) at bucket 0. -/
theorem C3_medium_file_counts (st : AggState) (size : ℕ)
    (h1 : 3 * OneKb ≤ size) (h2 : size ≤ OneMb) :
    (processFile st size).totalChunks = st.totalChunks + 4 ∧
    (processFile st size).smallChunks = st.smallChunks + 4 ∧
    (processFile st size).largeChunks = st.largeChunks ∧
    size / OneKb / 3 = size / 3 / OneKb ∧
    (processFile st size).histogram.counts =
      fun k => st.histogram.counts k
        + (if k = size / 3 / OneKb / 100 * 100 then 3 else 0)
        + (if k = 0 then 1 else 0) := by
  have hmb : ¬ OneMb < size := by omega
  have hkb : ¬ size < 3 * OneKb := by omega
  have hdiv : size / OneKb / 3 = size / 3 / OneKb := by
    simp only [OneKb]
    rw [Nat.div_div_eq_div_mul, Nat.div_div_eq_div_mul, Nat.mul_comm]
  refine ⟨?_, ?_, ?_, hdiv, ?_⟩ <;>
    simp only [processFile, if_neg hmb, if_neg hkb]
  funext k
  simp [addToHistogram_counts, hdiv]

/-- Witness for C3 at size 3072 (exactly 3 KB) from the initial state. -/
theorem C3_medium_file_counts_witness :
    3 * OneKb ≤ 3072 ∧ 3072 ≤ OneMb ∧
    ((processFile initState 3072).totalChunks = initState.totalChunks + 4 ∧
     (processFile initState 3072).smallChunks = initState.smallChunks + 4 ∧
     (processFile initState 3072).largeChunks = initState.largeChunks ∧
     3072 / OneKb / 3 = 3072 / 3 / OneKb ∧
     (processFile initState 3072).histogram.counts =
       fun k => initState.histogram.counts k
         + (if k = 3072 / 3 / OneKb / 100 * 100 then 3 else 0)
         + (if k = 0 then 1 else 0)) :=
  ⟨by decide, by decide, C3_medium_file_counts initState 3072 (by decide) (by decide)⟩

/-- Every chunk size (in KB) the policy records is at most 1024. -/
theorem recordedSizes_le (size s : ℕ) (hs : s ∈ recordedSizes size) :
    s ≤ 1024 := by
  simp only [recordedSizes, recordedEntries] at hs
  split_ifs at hs with hmb hkb <;>
    simp only [List.map, List.mem_cons, List.not_mem_nil, or_false] at hs <;>
    simp only [OneMb, OneKb] at * <;>
    omega

/-- Folding `addToHistogram` over entries whose keys all fall in the initial
key set leaves the key set equal to `initKeys` and never fires the
missing-key warning. -/
theorem foldl_addToHistogram_keys (entries : List (ℕ × ℤ)) (h : Histogram)
    (hk : h.keys = initKeys) (hall : ∀ e ∈ entries, e.1 ≤ 1024) :
    ((entries.foldl (fun a e => addToHistogram a e.1 e.2) h).keys = initKeys ∧
     (entries.foldl (fun a e => addToHistogram a e.1 e.2) h).missingKeyWarnings =
       h.missingKeyWarnings) := by
  induction entries generalizing h with
  | nil => exact ⟨hk, rfl⟩
  | cons e rest ih =>
    have hmem : e.1 / 100 * 100 ∈ h.keys := by
      rw [hk]
      exact bucketKey_mem_initKeys e.1 (hall e (by simp))
    obtain ⟨h1, h2⟩ := addToHistogram_of_mem h e.1 e.2 hmem
    simp only [List.foldl_cons]
    obtain ⟨g1, g2⟩ :=
      ih (addToHistogram h e.1 e.2) (h1.trans hk)
        (fun x hx => hall x (List.mem_cons_of_mem e hx))
    exact ⟨g1, g2.trans h2⟩

/-- The histogram produced by one loop iteration is the fold of
`addToHistogram` over the recorded `(size, count)` entries of the file. -/
theorem processFile_histogram_foldl (st : AggState) (size : ℕ) :
    (processFile st size).histogram =
      (recordedEntries size).foldl (fun a e => addToHistogram a e.1 e.2)
        st.histogram := by
  by_cases hmb : OneMb < size
  · simp [processFile, recordedEntries, hmb]
  · by_cases hkb : size < 3 * OneKb <;>
      simp [processFile, recordedEntries, hmb, hkb]

/-- One loop iteration keeps the histogram's key set equal to `initKeys` and
adds no missing-key warning. -/
theorem processFile_keys (st : AggState) (size : ℕ)
    (h : st.histogram.keys = initKeys) :
    (processFile st size).histogram.keys = initKeys ∧
    (processFile st size).histogram.missingKeyWarnings =
      st.histogram.missingKeyWarnings := by
  rw [processFile_histogram_foldl]
  exact foldl_addToHistogram_keys (recordedEntries size) st.histogram h
    (fun e he => recordedSizes_le size e.1 (List.mem_map_of_mem Prod.fst he))

/-- After processing any file list the histogram's key set is still exactly
the eleven initial keys and no missing-key warning was ever printed. -/
theorem foldl_processFile_keys (files : List ℕ) (st : AggState)
    (h : st.histogram.keys = initKeys) :
    (List.foldl processFile st files).histogram.keys = initKeys ∧
    (List.foldl processFile st files).histogram.missingKeyWarnings =
      st.histogram.missingKeyWarnings := by
  induction files generalizing st with
  | nil => exact ⟨h, rfl⟩
  | cons x rest ih =>
    simp only [List.foldl_cons]
    obtain ⟨h1, h2⟩ := processFile_keys st x h
    obtain ⟨g1, g2⟩ := ih (processFile st x) h1
    exact ⟨g1, g2.trans h2⟩

/-- C4: histogram bucket assignment is total and deterministic. Every
`(size, count)` pair the policy records has bucket key `size / 100 * 100`
(the fold over `recordedEntries` is literally how each loop iteration builds
its histogram); every such key lies in the eleven predefined keys; every
recorded size of at least 1000 KB lands in the terminal 1000 bucket; and on
any input list the key set never grows and the missing-key fallback branch
of `addToHistogram` never runs. -/
theorem C4_bucket_totality :
    (∀ size s, s ∈ recordedSizes size →
       (s / 100 * 100 ∈ initKeys ∧ (1000 ≤ s → s / 100 * 100 = 1000))) ∧
    (∀ (st : AggState) (size : ℕ),
       (processFile st size).histogram =
         (recordedEntries size).foldl (fun a e => addToHistogram a e.1 e.2)
           st.histogram) ∧
    (∀ files : List ℕ,
       (reportSizes files).histogram.keys = initKeys ∧
       (reportSizes files).histogram.missingKeyWarnings = 0) := by
  refine ⟨?_, processFile_histogram_foldl, ?_⟩
  · intro size s hs
    have hle := recordedSizes_le size s hs
    exact ⟨bucketKey_mem_initKeys s hle, fun h1000 => by omega⟩
  · intro files
    exact foldl_processFile_keys files initState rfl

/-- Witness for C4 on the recorded sizes of a 2 MB file: the full-chunk
entry of 1024 KB maps into the predefined keys and into the 1000 bucket. -/
theorem C4_bucket_totality_witness :
    1024 ∈ recordedSizes 2097152 ∧
    (1024 / 100 * 100 ∈ initKeys ∧ (1000 ≤ 1024 → 1024 / 100 * 100 = 1000)) :=
  ⟨by decide, C4_bucket_totality.1 2097152 1024 (by decide)⟩

/-- Adding `c` at an existing bucket key raises the histogram's total count
by exactly `c`. -/
theorem histogramTotal_addToHistogram (h : Histogram) (s : ℕ) (c : ℤ)
    (hmem : s / 100 * 100 ∈ h.keys) :
    histogramTotal (addToHistogram h s c) = histogramTotal h + c := by
  have hkeys := (addToHistogram_of_mem h s c hmem).1
  simp only [histogramTotal, hkeys, addToHistogram_counts]
  rw [Finset.sum_add_distrib,
    Finset.sum_ite_eq' h.keys (s / 100 * 100) (fun _ => c), if_pos hmem]

/-- One loop iteration raises the histogram's total count by exactly the
amount it adds to `totalChunks`. -/
theorem processFile_histogramTotal (st : AggState) (size : ℕ)
    (h : st.histogram.keys = initKeys)
    (hinv : histogramTotal st.histogram = st.totalChunks) :
    histogramTotal (processFile st size).histogram =
      (processFile st size).totalChunks := by
  by_cases hmb : OneMb < size
  · have hm1 : (1024 : ℕ) / 100 * 100 ∈ st.histogram.keys := by
      rw [h]; exact bucketKey_mem_initKeys 1024 (by omega)
    obtain ⟨hk1, _⟩ :=
      addToHistogram_of_mem st.histogram 1024 ((fileChunksFor size : ℤ) - 1) hm1
    have hm2 : (size % OneMb) / OneKb / 100 * 100 ∈
        (addToHistogram st.histogram 1024 ((fileChunksFor size : ℤ) - 1)).keys := by
      rw [hk1, h]
      refine bucketKey_mem_initKeys _ ?_
      simp only [OneMb, OneKb]
      omega
    obtain ⟨hk2, _⟩ := addToHistogram_of_mem _ ((size % OneMb) / OneKb) 1 hm2
    have hm3 : (1 : ℕ) / 100 * 100 ∈
        (addToHistogram
          (addToHistogram st.histogram 1024 ((fileChunksFor size : ℤ) - 1))
          ((size % OneMb) / OneKb) 1).keys := by
      rw [hk2, hk1, h]
      exact bucketKey_mem_initKeys 1 (by omega)
    simp only [processFile, if_pos hmb]
    rw [histogramTotal_addToHistogram _ _ _ hm3,
      histogramTotal_addToHistogram _ _ _ hm2,
      histogramTotal_addToHistogram _ _ _ hm1, hinv]
    omega
  · have hm1 : size / OneKb / 100 * 100 ∈ st.histogram.keys := by
      rw [h]
      refine bucketKey_mem_initKeys _ ?_
      simp only [OneMb, OneKb] at *
      omega
    by_cases hkb : size < 3 * OneKb
    · simp only [processFile, if_neg hmb, if_pos hkb]
      rw [histogramTotal_addToHistogram _ _ _ hm1, hinv]
    · have hm2 : size / OneKb / 3 / 100 * 100 ∈ st.histogram.keys := by
        rw [h]
        refine bucketKey_mem_initKeys _ ?_
        simp only [OneMb, OneKb] at *
        omega
      obtain ⟨hk2, _⟩ := addToHistogram_of_mem st.histogram (size / OneKb / 3) 3 hm2
      have hm3 : (1 : ℕ) / 100 * 100 ∈
          (addToHistogram st.histogram (size / OneKb / 3) 3).keys := by
        rw [hk2, h]
        exact bucketKey_mem_initKeys 1 (by omega)
      simp only [processFile, if_neg hmb, if_neg hkb]
      rw [histogramTotal_addToHistogram _ _ _ hm3,
        histogramTotal_addToHistogram _ _ _ hm2, hinv]
      omega

/-- C5: after processing any list of file sizes, the sum of all per-bucket
counts in the histogram equals the accumulated total chunk count. -/
theorem C5_histogram_sum_eq_totalChunks (files : List ℕ) :
    histogramTotal (reportSizes files).histogram =
      (reportSizes files).totalChunks := by
  suffices hgen : ∀ (l : List ℕ) (st : AggState),
      st.histogram.keys = initKeys →
      histogramTotal st.histogram = st.totalChunks →
      histogramTotal (List.foldl processFile st l).histogram =
        (List.foldl processFile st l).totalChunks by
    refine hgen files initState rfl ?_
    simp [histogramTotal, initState, initHistogram]
  intro l
  induction l with
  | nil => exact fun st _ hinv => hinv
  | cons x rest ih =>
    intro st h hinv
    exact ih (processFile st x) (processFile_keys st x h).1
      (processFile_histogramTotal st x h hinv)

/-- C6: for a file whose size is an exact multiple of 1 MB and greater than
1 MB (`size = m * OneMb`, `m ≥ 2`), the remainder is `size % OneMb = 0`, yet
the code still records a distinct zero-byte last chunk: the recorded entries
are the `m - 1` full chunks, a zero-size entry, and the datamap; the two
zero-bucket entries land in bucket 0 and `smallChunks` still rises by 2. In
particular a 2,097,152-byte file yields 3 chunks: 1 large, 2 small. -/
theorem C6_exact_multiple (st : AggState) (m : ℕ) (hm : 2 ≤ m) :
    (m * OneMb) % OneMb = 0 ∧
    recordedEntries (m * OneMb) = [(1024, (m : ℤ) - 1), (0, 1), (1, 1)] ∧
    (processFile st (m * OneMb)).totalChunks = st.totalChunks + (m : ℤ) + 1 ∧
    (processFile st (m * OneMb)).largeChunks = st.largeChunks + (m : ℤ) - 1 ∧
    (processFile st (m * OneMb)).smallChunks = st.smallChunks + 2 ∧
    (processFile st (m * OneMb)).histogram.counts =
      (fun k => st.histogram.counts k + (if k = 1000 then (m : ℤ) - 1 else 0)
        + (if k = 0 then 2 else 0)) ∧
    (reportSizes [2097152]).totalChunks = 3 ∧
    (reportSizes [2097152]).largeChunks = 1 ∧
    (reportSizes [2097152]).smallChunks = 2 := by
  have hmb : OneMb < m * OneMb := by
    simp only [OneMb]
    omega
  have hfc : fileChunksFor (m * OneMb) = m := by
    simp only [fileChunksFor, OneMb]
    omega
  have hmod : (m * OneMb) % OneMb = 0 := Nat.mul_mod_left m OneMb
  refine ⟨hmod, ?_, ?_, ?_, ?_, ?_, by decide, by decide, by decide⟩
  · simp [recordedEntries, hmb, hfc, hmod]
  · simp [processFile, hmb, hfc]
  · simp [processFile, hmb, hfc]
  · simp [processFile, hmb, hfc]
  · simp only [processFile, if_pos hmb, addToHistogram_counts, hfc, hmod]
    funext k
    norm_num
    split_ifs <;> omega

/-- Witness for C6 at `m = 2` (a 2 MB file) from the initial state. -/
theorem C6_exact_multiple_witness :
    2 ≤ 2 ∧
    ((2 * OneMb) % OneMb = 0 ∧
     recordedEntries (2 * OneMb) = [(1024, ((2 : ℕ) : ℤ) - 1), (0, 1), (1, 1)] ∧
     (processFile initState (2 * OneMb)).totalChunks =
       initState.totalChunks + ((2 : ℕ) : ℤ) + 1 ∧
     (processFile initState (2 * OneMb)).largeChunks =
       initState.largeChunks + ((2 : ℕ) : ℤ) - 1 ∧
     (processFile initState (2 * OneMb)).smallChunks =
       initState.smallChunks + 2 ∧
     (processFile initState (2 * OneMb)).histogram.counts =
       (fun k => initState.histogram.counts k
         + (if k = 1000 then ((2 : ℕ) : ℤ) - 1 else 0)
         + (if k = 0 then 2 else 0)) ∧
     (reportSizes [2097152]).totalChunks = 3 ∧
     (reportSizes [2097152]).largeChunks = 1 ∧
     (reportSizes [2097152]).smallChunks = 2) :=
  ⟨by decide, C6_exact_multiple initState 2 (by decide)⟩

/-- One loop iteration preserves `totalChunks = largeChunks + smallChunks`. -/
theorem processFile_chunk_balance (st : AggState) (size : ℕ)
    (h : st.totalChunks = st.largeChunks + st.smallChunks) :
    (processFile st size).totalChunks =
      (processFile st size).largeChunks + (processFile st size).smallChunks := by
  by_cases hmb : OneMb < size
  · simp only [processFile, if_pos hmb]
    omega
  · by_cases hkb : size < 3 * OneKb <;>
      simp only [processFile, if_neg hmb, if_pos, if_neg, hkb, ite_true,
        ite_false] <;>
      omega

/-- C9: after processing any list of file sizes the accumulated counters
satisfy `totalChunks = largeChunks + smallChunks`, and every per-file update
preserves this equality. -/
theorem C9_chunk_balance (files : List ℕ) :
    ((reportSizes files).totalChunks =
       (reportSizes files).largeChunks + (reportSizes files).smallChunks) ∧
    (∀ (st : AggState) (size : ℕ),
       st.totalChunks = st.largeChunks + st.smallChunks →
       (processFile st size).totalChunks =
         (processFile st size).largeChunks + (processFile st size).smallChunks) := by
  refine ⟨?_, processFile_chunk_balance⟩
  suffices hgen : ∀ (l : List ℕ) (st : AggState),
      st.totalChunks = st.largeChunks + st.smallChunks →
      (List.foldl processFile st l).totalChunks =
        (List.foldl processFile st l).largeChunks +
          (List.foldl processFile st l).smallChunks by
    exact hgen files initState (by decide)
  intro l
  induction l with
  | nil => exact fun st h => h
  | cons x rest ih =>
    exact fun st h => ih (processFile st x) (processFile_chunk_balance st x h)

/-- Witness for C9's per-update part at the initial state and size 500. -/
theorem C9_chunk_balance_witness :
    (initState.totalChunks = initState.largeChunks + initState.smallChunks) ∧
    (processFile initState 500).totalChunks =
      (processFile initState 500).largeChunks +
        (processFile initState 500).smallChunks :=
  ⟨by decide, (C9_chunk_balance []).2 initState 500 (by decide)⟩

/-- C10: every processed file lands in exactly one of the two size classes:
the count of files above 1 MB plus the count of files not above 1 MB equals
the length of the processed list. -/
theorem C10_file_class_partition (files : List ℕ) :
    (reportSizes files).gt + (reportSizes files).lt = (files.length : ℤ) := by
  suffices hgen : ∀ (l : List ℕ) (st : AggState),
      (List.foldl processFile st l).gt + (List.foldl processFile st l).lt =
        st.gt + st.lt + (l.length : ℤ) by
    have h := hgen files initState
    simpa [initState] using h
  intro l
  induction l with
  | nil => intro st; simp
  | cons x rest ih =>
    intro st
    have hstep : (processFile st x).gt + (processFile st x).lt =
        st.gt + st.lt + 1 := by
      by_cases hmb : OneMb < x
      · simp only [processFile, if_pos hmb]
        omega
      · by_cases hkb : x < 3 * OneKb <;>
          simp only [processFile, if_neg hmb, hkb, ite_true, ite_false] <;>
          omega
    simp only [List.foldl_cons, ih (processFile st x), hstep, List.length_cons]
    push_cast
    ring

/-- C8 counterexample: when `user.Current()` fails, `main` prints the error
and merely `return`s, so the process exits with status 0 — the claimed
"non-zero outcome" is false. -/
theorem C8_counterexample :
    (runMain Option.none).printedError = true ∧
    (runMain Option.none).printedReport = false ∧
    ¬ (runMain Option.none).exitCode ≠ 0 := by
  refine ⟨rfl, rfl, ?_⟩
  decide

/-- C8 (amended): if the home directory cannot be resolved, the program
prints an error message and terminates early — with exit status 0, since Go
exits with status 0 when `main` returns — without traversing the filesystem
or producing any report; otherwise it completes and exits successfully
(status 0) after printing the report. -/
theorem C8_amended :
    ((runMain Option.none).printedError = true ∧
     (runMain Option.none).printedReport = false ∧
     (runMain Option.none).exitCode = 0) ∧
    (∀ files : List ℕ,
       runMain (Option.some files) =
         { printedError := false, printedReport := true, exitCode := 0 }) := by
  exact ⟨⟨rfl, rfl, rfl⟩, fun _ => rfl⟩

/-- The histogram merge is commutative. -/
theorem mergeHistogram_comm (a b : Histogram) :
    mergeHistogram a b = mergeHistogram b a := by
  simp only [mergeHistogram, Histogram.mk.injEq]
  refine ⟨Finset.union_comm a.keys b.keys, ?_, by omega⟩
  funext k
  ring

/-- The histogram merge is associative. -/
theorem mergeHistogram_assoc (a b c : Histogram) :
    mergeHistogram (mergeHistogram a b) c =
      mergeHistogram a (mergeHistogram b c) := by
  simp only [mergeHistogram, Histogram.mk.injEq]
  refine ⟨Finset.union_assoc a.keys b.keys c.keys, ?_, by omega⟩
  funext k
  ring

/-- The state merge is commutative. -/
theorem mergeState_comm (a b : AggState) : mergeState a b = mergeState b a := by
  simp only [mergeState, AggState.mk.injEq, mergeHistogram_comm]
  refine ⟨?_, ?_, ?_, ?_, ?_, ?_, ?_, trivial⟩ <;> ring

/-- The state merge is associative. -/
theorem mergeState_assoc (a b c : AggState) :
    mergeState (mergeState a b) c = mergeState a (mergeState b c) := by
  simp only [mergeState, AggState.mk.injEq, mergeHistogram_assoc]
  refine ⟨?_, ?_, ?_, ?_, ?_, ?_, ?_, trivial⟩ <;> ring

/-- Merging with an aggregation state whose histogram keys are the initial
ones absorbs the empty initial state on the right. -/
theorem mergeState_initState (a : AggState)
    (h : a.histogram.keys = initKeys) : mergeState a initState = a := by
  have hk : a.histogram.keys ∪ initKeys = a.histogram.keys := by
    rw [h]
    exact Finset.union_self initKeys
  have hh : mergeHistogram a.histogram initHistogram = a.histogram := by
    simp [mergeHistogram, initHistogram, hk]
  simp [mergeState, initState, hh]

/-- The key set after `addToHistogram` is the old key set with the bucket
key inserted. -/
theorem addToHistogram_keys (h : Histogram) (s : ℕ) (c : ℤ) :
    (addToHistogram h s c).keys = insert (s / 100 * 100) h.keys := rfl

/-- Recording a chunk into a merged histogram is the same as recording it
into the right component and merging afterwards, provided the right
component already has the bucket key. -/
theorem addToHistogram_merge (a b : Histogram) (s : ℕ) (c : ℤ)
    (hb : s / 100 * 100 ∈ b.keys) :
    addToHistogram (mergeHistogram a b) s c =
      mergeHistogram a (addToHistogram b s c) := by
  simp only [addToHistogram, mergeHistogram, Histogram.mk.injEq]
  refine ⟨(Finset.union_insert _ _ _).symm, ?_, ?_⟩
  · funext k
    split <;> ring
  · rw [if_pos (Finset.mem_union_right a.keys hb), if_pos hb]

/-- Processing one file starting from a merged state is the same as
processing it in the right component and merging afterwards, provided the
right component's histogram keys are the initial ones. -/
theorem processFile_merge (a b : AggState) (size : ℕ)
    (hb : b.histogram.keys = initKeys) :
    processFile (mergeState a b) size = mergeState a (processFile b size) := by
  by_cases hmb : OneMb < size
  · have m1 : (1024 : ℕ) / 100 * 100 ∈ b.histogram.keys := by
      rw [hb]
      exact bucketKey_mem_initKeys 1024 (by omega)
    have m2 : (size % OneMb) / OneKb / 100 * 100 ∈
        (addToHistogram b.histogram 1024 ((fileChunksFor size : ℤ) - 1)).keys := by
      rw [addToHistogram_keys]
      refine Finset.mem_insert_of_mem ?_
      rw [hb]
      refine bucketKey_mem_initKeys _ ?_
      simp only [OneMb, OneKb]
      omega
    have m3 : (1 : ℕ) / 100 * 100 ∈
        (addToHistogram
          (addToHistogram b.histogram 1024 ((fileChunksFor size : ℤ) - 1))
          ((size % OneMb) / OneKb) 1).keys := by
      rw [addToHistogram_keys, addToHistogram_keys]
      refine Finset.mem_insert_of_mem (Finset.mem_insert_of_mem ?_)
      rw [hb]
      exact bucketKey_mem_initKeys 1 (by omega)
    simp only [processFile, if_pos hmb, mergeState, AggState.mk.injEq]
    refine ⟨by ring_nf, by ring_nf, by ring_nf, by ring_nf, by ring_nf, by ring_nf, by ring_nf, ?_⟩
    rw [addToHistogram_merge _ _ _ _ m1, addToHistogram_merge _ _ _ _ m2,
      addToHistogram_merge _ _ _ _ m3]
  · by_cases hkb : size < 3 * OneKb
    · have m1 : size / OneKb / 100 * 100 ∈ b.histogram.keys := by
        rw [hb]
        refine bucketKey_mem_initKeys _ ?_
        simp only [OneMb, OneKb] at *
        omega
      simp only [processFile, if_neg hmb, if_pos hkb, mergeState,
        AggState.mk.injEq]
      refine ⟨by ring_nf, by ring_nf, by ring_nf, by ring_nf, by ring_nf, by ring_nf, by ring_nf, ?_⟩
      rw [addToHistogram_merge _ _ _ _ m1]
    · have m1 : size / OneKb / 3 / 100 * 100 ∈ b.histogram.keys := by
        rw [hb]
        refine bucketKey_mem_initKeys _ ?_
        simp only [OneMb, OneKb] at *
        omega
      have m2 : (1 : ℕ) / 100 * 100 ∈
          (addToHistogram b.histogram (size / OneKb / 3) 3).keys := by
        rw [addToHistogram_keys]
        refine Finset.mem_insert_of_mem ?_
        rw [hb]
        exact bucketKey_mem_initKeys 1 (by omega)
      simp only [processFile, if_neg hmb, if_neg hkb, mergeState,
        AggState.mk.injEq]
      refine ⟨by ring_nf, by ring_nf, by ring_nf, by ring_nf, by ring_nf, by ring_nf, by ring_nf, ?_⟩
      rw [addToHistogram_merge _ _ _ _ m1, addToHistogram_merge _ _ _ _ m2]

/-- Folding the loop body over a list from a merged starting state merges
afterwards instead, provided the right component's keys are the initial
ones. -/
theorem foldl_processFile_merge (l : List ℕ) (a b : AggState)
    (hb : b.histogram.keys = initKeys) :
    List.foldl processFile (mergeState a b) l =
      mergeState a (List.foldl processFile b l) := by
  induction l generalizing b with
  | nil => rfl
  | cons x rest ih =>
    simp only [List.foldl_cons]
    rw [processFile_merge a b x hb]
    exact ih (processFile b x) (processFile_keys b x hb).1

/-- Processing one file is a pure additive contribution: it equals merging
the contribution computed from the empty initial state. -/
theorem processFile_shift (st : AggState) (size : ℕ)
    (h : st.histogram.keys = initKeys) :
    processFile st size = mergeState st (processFile initState size) := by
  have h1 := processFile_merge st initState size rfl
  rw [mergeState_initState st h] at h1
  exact h1

/-- Two consecutive loop iterations commute. -/
theorem processFile_swap (st : AggState) (x y : ℕ)
    (h : st.histogram.keys = initKeys) :
    processFile (processFile st x) y = processFile (processFile st y) x := by
  have hx := processFile_keys st x h
  have hy := processFile_keys st y h
  rw [processFile_shift (processFile st x) y hx.1, processFile_shift st x h,
    processFile_shift (processFile st y) x hy.1, processFile_shift st y h,
    mergeState_assoc, mergeState_assoc,
    mergeState_comm (processFile initState x) (processFile initState y)]

/-- Folding the loop body over any permutation of a list gives the same
final state, for any starting state whose histogram keys are the initial
ones. -/
theorem foldl_processFile_perm (l1 l2 : List ℕ) (hp : l1.Perm l2) :
    ∀ st : AggState, st.histogram.keys = initKeys →
      List.foldl processFile st l1 = List.foldl processFile st l2 := by
  induction hp with
  | nil => exact fun st _ => rfl
  | cons x hp ih =>
    intro st h
    simp only [List.foldl_cons]
    exact ih (processFile st x) (processFile_keys st x h).1
  | swap x y l =>
    intro st h
    simp only [List.foldl_cons]
    rw [processFile_swap st y x h]
  | trans hp1 hp2 ih1 ih2 =>
    intro st h
    exact (ih1 st h).trans (ih2 st h)

/-- C7: aggregation is associative and commutative across files. Splitting a
file list into two sublists, aggregating each independently from the empty
state and merging the results by addition gives exactly the sequential
aggregate of the whole list; the merge itself is commutative; and any
reordering (permutation) of the file list yields the same aggregate. -/
theorem C7_merge_aggregation (l1 l2 : List ℕ) :
    (reportSizes (l1 ++ l2) = mergeState (reportSizes l1) (reportSizes l2)) ∧
    (mergeState (reportSizes l1) (reportSizes l2) =
       mergeState (reportSizes l2) (reportSizes l1)) ∧
    (∀ p : List ℕ, p.Perm (l1 ++ l2) → reportSizes p = reportSizes (l1 ++ l2)) := by
  have hkeys : ∀ l : List ℕ, (reportSizes l).histogram.keys = initKeys :=
    fun l => (foldl_processFile_keys l initState rfl).1
  refine ⟨?_, mergeState_comm _ _, ?_⟩
  · calc reportSizes (l1 ++ l2)
        = List.foldl processFile (reportSizes l1) l2 := by
          simp [reportSizes, List.foldl_append]
      _ = List.foldl processFile (mergeState (reportSizes l1) initState) l2 := by
          rw [mergeState_initState (reportSizes l1) (hkeys l1)]
      _ = mergeState (reportSizes l1) (List.foldl processFile initState l2) :=
          foldl_processFile_merge l2 (reportSizes l1) initState rfl
      _ = mergeState (reportSizes l1) (reportSizes l2) := rfl
  · exact fun p hp => foldl_processFile_perm p (l1 ++ l2) hp initState rfl

/-- Witness for C7 on the concrete lists [500] and [2097152]. -/
theorem C7_merge_aggregation_witness :
    (reportSizes ([500] ++ [2097152]) =
       mergeState (reportSizes [500]) (reportSizes [2097152])) ∧
    ([2097152, 500].Perm ([500] ++ [2097152]) ∧
     reportSizes [2097152, 500] = reportSizes ([500] ++ [2097152])) :=
  ⟨(C7_merge_aggregation [500] [2097152]).1,
   List.Perm.swap 500 2097152 [],
   (C7_merge_aggregation [500] [2097152]).2.2 [2097152, 500]
     (List.Perm.swap 500 2097152 [])⟩
